import Mathlib

/-! Formal model of `src/verifier.py` (Flame-Protocol/lockout-verify).

The Keccak-256 primitive (`Web3.keccak`) is an external library call, not code
of this repository, so the whole development is parametric over it: a value
`keccak : List Nat → List Nat` maps an input byte sequence to a digest byte
sequence.  Documents ("laws") are represented by their UTF-8 byte sequences;
Python's `sorted` on strings compares code points lexicographically, which
coincides with byte-wise lexicographic order of the UTF-8 encodings, so the
model sorts byte sequences.  Digest values travel through the program exactly
as in the source: as `0x`-prefixed lowercase hex strings, the rendering
produced by `HexBytes.hex()`. -/

/-- Lowercase hexadecimal digit character for a value below 16, as produced
by Python's hex rendering: `0`-`9` then `a`-`f`. -/
def hexDigitChar (n : Nat) : Char :=
  if n < 10 then Char.ofNat (48 + n) else Char.ofNat (87 + n)

/-- Two lowercase hex characters for one byte. -/
def byteToHexChars (b : Nat) : List Char :=
  [hexDigitChar (b / 16), hexDigitChar (b % 16)]

/-- Lowercase hex rendering of a byte sequence, two characters per byte. -/
def bytesToHexChars : List Nat → List Char
  | [] => []
  | b :: bs => byteToHexChars b ++ bytesToHexChars bs

/-- Model of `keccak256` from `src/verifier.py`: `Web3.keccak(data).hex()`,
i.e. the digest of `data` rendered as a `0x`-prefixed lowercase hex string.
The digest primitive itself is the parameter `keccak`. -/
def keccak256 (keccak : List Nat → List Nat) (data : List Nat) : String :=
  "0x" ++ String.mk (bytesToHexChars (keccak data))

/-- Numeric value of one hex digit character; `bytes.fromhex` accepts both
letter cases.  Non-hex characters do not occur on the program's inputs. -/
def hexDigitVal (c : Char) : Nat :=
  if 48 ≤ c.toNat ∧ c.toNat ≤ 57 then c.toNat - 48
  else if 97 ≤ c.toNat ∧ c.toNat ≤ 102 then c.toNat - 87
  else if 65 ≤ c.toNat ∧ c.toNat ≤ 70 then c.toNat - 55
  else 0

/-- Decode a hex character sequence to bytes, two characters per byte,
modelling `bytes.fromhex`.  All strings decoded by the program have even
length, so the trailing-character case does not arise on its inputs. -/
def bytesFromHexChars : List Char → List Nat
  | c1 :: c2 :: cs => (16 * hexDigitVal c1 + hexDigitVal c2) :: bytesFromHexChars cs
  | _ => []

/-- Model of `bytes.fromhex(s[2:])` as used in `build_merkle_root`: drop the
first two characters (the `0x` marker) and decode the rest as hex bytes. -/
def raw_bytes (s : String) : List Nat :=
  bytesFromHexChars (s.data.drop 2)

/-- Boolean byte-wise lexicographic order on byte sequences; this is the
order in which Python's `sorted` arranges the documents. -/
def bytesLe : List Nat → List Nat → Bool
  | [], _ => true
  | _ :: _, [] => false
  | a :: as, b :: bs => if a < b then true else if b < a then false else bytesLe as bs

/-- Propositional form of `bytesLe`, used as the sorting relation. -/
def ByteLe (a b : List Nat) : Prop := bytesLe a b = true

instance ByteLe.decidableRel : DecidableRel ByteLe :=
  fun a b => decidable_of_iff (bytesLe a b = true) Iff.rfl

/-- Model of `build_merkle_leaves` from `src/verifier.py`: sort the documents
(byte sequences) and hash each one, `[keccak256(doc.encode('utf-8')) for doc
in sorted(docs)]`. -/
def build_merkle_leaves (keccak : List Nat → List Nat)
    (docs : List (List Nat)) : List String :=
  (List.insertionSort ByteLe docs).map (fun doc => keccak256 keccak doc)

/-- One pass of the `for i in range(0, len(current), 2)` loop in
`build_merkle_root`: consecutive pairs are hex-decoded, concatenated and
hashed; a final unpaired element is hashed from its raw bytes alone
(`combined = left`). -/
def build_merkle_level (keccak : List Nat → List Nat) : List String → List String
  | [] => []
  | [x] => [keccak256 keccak (raw_bytes x)]
  | x :: y :: rest =>
      keccak256 keccak (raw_bytes x ++ raw_bytes y) :: build_merkle_level keccak rest

/-- The `while len(current) > 1` loop of `build_merkle_root`, written with an
explicit iteration bound so that the definition is structurally recursive.
`build_merkle_root` invokes it with bound `leaves.length`, which is proved
sufficient: the loop reaches a single element after exactly
`Nat.clog 2 n ≤ n` passes, so the bound is never exhausted. -/
def merkle_iter (keccak : List Nat → List Nat) : Nat → List String → List String
  | 0, l => l
  | k + 1, l =>
      if 1 < l.length then merkle_iter keccak k (build_merkle_level keccak l) else l

/-- Number of executions of the body of the `while len(current) > 1` loop,
instrumented over the same bounded iteration as `merkle_iter`. -/
def merkle_rounds_iter (keccak : List Nat → List Nat) : Nat → List String → Nat
  | 0, _ => 0
  | k + 1, l =>
      if 1 < l.length then
        merkle_rounds_iter keccak k (build_merkle_level keccak l) + 1
      else 0

/-- Number of reduction rounds `build_merkle_root` performs on `leaves`. -/
def merkle_rounds (keccak : List Nat → List Nat) (leaves : List String) : Nat :=
  merkle_rounds_iter keccak leaves.length leaves

/-- Model of `build_merkle_root` from `src/verifier.py`: raise
`ValueError("No leaves")` on an empty input, otherwise run the pairwise
reduction loop and return the single remaining element (`current[0]`; the
default `""` of `headD` is unreachable, since the loop's result is proved to
have length one). -/
def build_merkle_root (keccak : List Nat → List Nat)
    (leaves : List String) : Except String String :=
  if leaves.isEmpty then Except.error "No leaves"
  else Except.ok ((merkle_iter keccak leaves.length leaves).headD "")

/-- The epoch tag hardcoded in `verify_against_txs` (`epoch = "EPOCH_..."`,
standing in for the value read from the ledger payload). -/
def epoch : String := "EPOCH_2025-10-15-154540"

/-- The Lattice-rule block at the end of `verify_against_txs`: compare the
computed root with the expected one; the attestation flag is the comparison
outcome, and the epoch is only printed alongside, returned here as the
provenance component of the result. -/
def lattice_attest (computed_root expected_root ep : String) : Bool × String :=
  if computed_root == expected_root then (true, ep) else (false, ep)

/-- Model of `verify_against_txs` from `src/verifier.py`, from the point where
the law list is available (reading and splitting the codex file is the
external document source, out of scope per the design).  The root is computed
by composing `build_merkle_leaves` and `build_merkle_root`; a `ValueError`
propagates as `Except.error`.  On mismatch the function returns `False`; the
loop over `tx_hashes` only prints, and the final Lattice-rule block returns
the attestation flag. -/
def verify_against_txs (keccak : List Nat → List Nat) (laws : List (List Nat))
    (expected_root : String) (tx_hashes : List String) : Except String Bool :=
  match build_merkle_root keccak (build_merkle_leaves keccak laws) with
  | Except.error e => Except.error e
  | Except.ok computed_root =>
      if computed_root != expected_root then Except.ok false
      else Except.ok (lattice_attest computed_root expected_root epoch).1

/-- Concrete stand-in for the abstract Keccak-256 primitive, used only to
evaluate the model at concrete inputs: the identity on byte sequences.  The
theorems of this development are parametric in the primitive. -/
def keccakId (data : List Nat) : List Nat := data

/-- Concrete 32-byte stand-in for the abstract Keccak-256 primitive, used
only to evaluate the model at concrete inputs: a digest of 31 zero bytes
followed by the input length modulo 256. -/
def keccakStub (data : List Nat) : List Nat :=
  List.replicate 31 0 ++ [data.length % 256]

/-- Totality of the byte-wise lexicographic order. -/
theorem bytesLe_total : ∀ a b : List Nat, bytesLe a b = true ∨ bytesLe b a = true
  | [], _ => Or.inl rfl
  | _ :: _, [] => Or.inr rfl
  | a :: as, b :: bs => by
      rcases Nat.lt_trichotomy a b with hab | rfl | hab
      · exact Or.inl (by simp [bytesLe, hab])
      · rcases bytesLe_total as bs with h | h
        · exact Or.inl (by simp [bytesLe, h])
        · exact Or.inr (by simp [bytesLe, h])
      · exact Or.inr (by simp [bytesLe, hab])

/-- Transitivity of the byte-wise lexicographic order. -/
theorem bytesLe_trans : ∀ a b c : List Nat,
    bytesLe a b = true → bytesLe b c = true → bytesLe a c = true
  | [], _, _, _, _ => rfl
  | _ :: _, [], _, h, _ => by simp [bytesLe] at h
  | _ :: _, _ :: _, [], _, h => by simp [bytesLe] at h
  | a :: as, b :: bs, c :: cs, h1, h2 => by
      simp only [bytesLe] at h1 h2 ⊢
      rcases Nat.lt_trichotomy a b with hab | rfl | hab
      · rcases Nat.lt_trichotomy b c with hbc | rfl | hbc
        · simp [Nat.lt_trans hab hbc]
        · simp [hab]
        · rw [if_neg (Nat.lt_asymm hbc), if_pos hbc] at h2
          exact absurd h2 (by simp)
      · rw [if_neg (lt_irrefl a), if_neg (lt_irrefl a)] at h1
        rcases Nat.lt_trichotomy a c with hac | rfl | hac
        · simp [hac]
        · rw [if_neg (lt_irrefl a), if_neg (lt_irrefl a)] at h2 ⊢
          exact bytesLe_trans as bs cs h1 h2
        · rw [if_neg (Nat.lt_asymm hac), if_pos hac] at h2
          exact absurd h2 (by simp)
      · rw [if_neg (Nat.lt_asymm hab), if_pos hab] at h1
        exact absurd h1 (by simp)

/-- Antisymmetry of the byte-wise lexicographic order. -/
theorem bytesLe_antisymm : ∀ a b : List Nat,
    bytesLe a b = true → bytesLe b a = true → a = b
  | [], [], _, _ => rfl
  | [], _ :: _, _, h => by simp [bytesLe] at h
  | _ :: _, [], h, _ => by simp [bytesLe] at h
  | a :: as, b :: bs, h1, h2 => by
      simp only [bytesLe] at h1 h2
      rcases Nat.lt_trichotomy a b with hab | rfl | hab
      · rw [if_neg (Nat.lt_asymm hab), if_pos hab] at h2
        exact absurd h2 (by simp)
      · rw [if_neg (lt_irrefl a), if_neg (lt_irrefl a)] at h1 h2
        rw [bytesLe_antisymm as bs h1 h2]
      · rw [if_neg (Nat.lt_asymm hab), if_pos hab] at h1
        exact absurd h1 (by simp)

instance ByteLe.isTotal : IsTotal (List Nat) ByteLe := ⟨bytesLe_total⟩

instance ByteLe.isTrans : IsTrans (List Nat) ByteLe := ⟨bytesLe_trans⟩

instance ByteLe.isAntisymm : IsAntisymm (List Nat) ByteLe := ⟨bytesLe_antisymm⟩

/-- Mapping a function over a list does not decrease the multiplicity of any
element's image. -/
theorem count_le_count_map {α β : Type} [BEq α] [LawfulBEq α] [BEq β] [LawfulBEq β]
    (f : α → β) (a : α) : ∀ l : List α, l.count a ≤ (l.map f).count (f a)
  | [] => Nat.le_refl 0
  | x :: l => by
      have ih := count_le_count_map f a l
      rcases eq_or_ne a x with hx | hx
      · subst hx
        simp only [List.map_cons, List.count_cons_self]
        omega
      · have hbeq : (x == a) = false := by simp [hx.symm]
        simp only [List.map_cons, List.count_cons, hbeq, Bool.false_eq_true, if_false]
        by_cases hfx : (f x == f a) = true
        · simp only [hfx, if_true]
          omega
        · simp only [Bool.not_eq_true] at hfx
          simp only [hfx, Bool.false_eq_true, if_false]
          omega

/-- One reduction pass maps a level of length `m` to one of length
`⌈m / 2⌉ = (m + 1) / 2`. -/
theorem build_merkle_level_length (keccak : List Nat → List Nat) :
    ∀ l : List String, (build_merkle_level keccak l).length = (l.length + 1) / 2
  | [] => by simp [build_merkle_level]
  | [_] => by simp [build_merkle_level]
  | _ :: _ :: rest => by
      simp only [build_merkle_level, List.length_cons]
      rw [build_merkle_level_length keccak rest]
      omega

/-- The ceiling base-2 logarithm is bounded by its argument. -/
theorem clog_two_le_self : ∀ n : Nat, Nat.clog 2 n ≤ n := by
  intro n
  induction n using Nat.strong_induction_on with
  | _ n ih =>
    rcases le_or_lt n 1 with h1 | h1
    · rw [Nat.clog_of_right_le_one h1]
      exact Nat.zero_le n
    · rw [Nat.clog_of_two_le (by norm_num) h1]
      have hlt : (n + 2 - 1) / 2 < n := by omega
      have := ih _ hlt
      omega

/-- Invariant of the bounded reduction loop: on a non-empty level, any bound
of at least `⌈log₂ n⌉` passes reaches a single element, and the loop body runs
exactly `⌈log₂ n⌉` times. -/
theorem merkle_iter_spec (keccak : List Nat → List Nat) :
    ∀ (k : Nat) (l : List String), l ≠ [] → Nat.clog 2 l.length ≤ k →
      (merkle_iter keccak k l).length = 1 ∧
        merkle_rounds_iter keccak k l = Nat.clog 2 l.length := by
  intro k
  induction k with
  | zero =>
    intro l hne hk
    have hpos : 0 < l.length := List.length_pos.mpr hne
    have hlen1 : l.length = 1 := by
      by_contra hne1
      have h2 : 2 ≤ l.length := by omega
      have := Nat.clog_pos (by norm_num : (1 : ℕ) < 2) h2
      omega
    exact ⟨hlen1, by simp [merkle_rounds_iter, Nat.clog_of_right_le_one (by omega : l.length ≤ 1)]⟩
  | succ k ih =>
    intro l hne hk
    by_cases hlen : 1 < l.length
    · have hrec : Nat.clog 2 l.length = Nat.clog 2 ((l.length + 1) / 2) + 1 := by
        have h := Nat.clog_of_two_le (by norm_num : (1 : ℕ) < 2) (by omega : 2 ≤ l.length)
        have h21 : l.length + 2 - 1 = l.length + 1 := by omega
        rw [h21] at h
        exact h
      have hlevlen : (build_merkle_level keccak l).length = (l.length + 1) / 2 :=
        build_merkle_level_length keccak l
      have hlevne : build_merkle_level keccak l ≠ [] := by
        intro hnil
        rw [hnil] at hlevlen
        simp at hlevlen
        omega
      rw [hrec] at hk
      have hkk : Nat.clog 2 (build_merkle_level keccak l).length ≤ k := by
        rw [hlevlen]
        omega
      obtain ⟨ih1, ih2⟩ := ih (build_merkle_level keccak l) hlevne hkk
      refine ⟨by simpa [merkle_iter, hlen] using ih1, ?_⟩
      simp only [merkle_rounds_iter, if_pos hlen]
      rw [ih2, hlevlen, hrec]
    · have hpos : 0 < l.length := List.length_pos.mpr hne
      have hlen1 : l.length = 1 := by omega
      constructor
      · simp [merkle_iter, hlen, hlen1]
      · simp [merkle_rounds_iter, hlen, Nat.clog_of_right_le_one (by omega : l.length ≤ 1)]

/-- Appending a final unpaired element to a fully paired level carries it to
the next level as the hash of its raw bytes alone (`combined = left` in the
source's odd case). -/
theorem build_merkle_level_append (keccak : List Nat → List Nat) :
    ∀ (l : List String) (x : String), l.length % 2 = 0 →
      build_merkle_level keccak (l ++ [x]) =
        build_merkle_level keccak l ++ [keccak256 keccak (raw_bytes x)]
  | [], _, _ => rfl
  | [_], _, h => by simp at h
  | a :: b :: rest, x, h => by
      have h' : rest.length % 2 = 0 := by
        simp only [List.length_cons] at h
        omega
      have ih := build_merkle_level_append keccak rest x h'
      simp only [List.cons_append, build_merkle_level, List.append_eq, ih]

/-- Claim C1, counterexample.  The claim's self-pairing formula fails on the
code: for the three leaves `0x11, 0x22, 0x33` (with the identity digest
primitive) the code computes `hash(hash(11||22) || hash(33)) = 0x112233`,
not the claimed `hash(hash(11||22) || hash(33||33)) = 0x11223333`. -/
theorem merkle_selfpair_counterexample :
    build_merkle_root keccakId ["0x11", "0x22", "0x33"] ≠
      Except.ok (keccak256 keccakId
        (raw_bytes (keccak256 keccakId (raw_bytes "0x11" ++ raw_bytes "0x22"))
          ++ raw_bytes (keccak256 keccakId (raw_bytes "0x33" ++ raw_bytes "0x33")))) :=
  fun h => absurd (Except.ok.inj h) (by decide)

/-- Claim C1, amended.  Whenever a reduction level has an odd number of
elements, the final unpaired element is carried to the next level as the hash
of its raw bytes alone (not concatenated with themselves); in particular, for
three leaves `[a, b, c]` the root equals
`Hasher.hash(Hasher.hash(a||b) || Hasher.hash(c))`. -/
theorem merkle_odd_carry_alone (keccak : List Nat → List Nat) (l : List String)
    (x a b c : String) (h : l.length % 2 = 0) :
    build_merkle_level keccak (l ++ [x]) =
        build_merkle_level keccak l ++ [keccak256 keccak (raw_bytes x)]
      ∧ build_merkle_root keccak [a, b, c] =
        Except.ok (keccak256 keccak
          (raw_bytes (keccak256 keccak (raw_bytes a ++ raw_bytes b))
            ++ raw_bytes (keccak256 keccak (raw_bytes c)))) :=
  ⟨build_merkle_level_append keccak l x h, rfl⟩

/-- Witness for the amended claim C1 at a concrete even-length level and
concrete three-leaf input. -/
theorem merkle_odd_carry_alone_witness :
    (["0x11", "0x22"] : List String).length % 2 = 0
      ∧ (build_merkle_level keccakId (["0x11", "0x22"] ++ ["0x33"]) =
          build_merkle_level keccakId ["0x11", "0x22"]
            ++ [keccak256 keccakId (raw_bytes "0x33")]
        ∧ build_merkle_root keccakId ["0x11", "0x22", "0x33"] =
          Except.ok (keccak256 keccakId
            (raw_bytes (keccak256 keccakId (raw_bytes "0x11" ++ raw_bytes "0x22"))
              ++ raw_bytes (keccak256 keccakId (raw_bytes "0x33"))))) :=
  ⟨by decide,
    merkle_odd_carry_alone keccakId ["0x11", "0x22"] "0x33" "0x11" "0x22" "0x33" (by decide)⟩

/-- Claim C2, counterexample.  `build_merkle_leaves` applied to the empty
document sequence does not fail: it returns the empty leaf list as a normal
result (the function has no empty-input check; only `build_merkle_root`
raises). -/
theorem empty_leaves_counterexample : build_merkle_leaves keccakId [] = [] := rfl

/-- Claim C2, amended.  `build_merkle_root` fails on the empty sequence with
the `ValueError("No leaves")` that the design calls `EmptyInputError`, while
`build_merkle_leaves` returns the empty list normally; composing the two on
an empty document set therefore still fails. -/
theorem empty_input_behaviour (keccak : List Nat → List Nat) :
    build_merkle_leaves keccak [] = []
      ∧ build_merkle_root keccak [] = Except.error "No leaves"
      ∧ build_merkle_root keccak (build_merkle_leaves keccak [])
        = Except.error "No leaves" :=
  ⟨rfl, rfl, rfl⟩

/-- Claim C3, counterexample.  The root comparison in `verify_against_txs` is
not case-insensitive and does not normalize the `0x` marker: with the
32-byte stub digest, one document of eleven zero bytes yields the computed
root `0x00...0b`; the expected values `0x00...0b`, `0x00...0B` (same digest,
different hex letter case) and `00...0b` (same digest, no `0x`) give three
different matches outcomes. -/
theorem verify_case_counterexample :
    verify_against_txs keccakStub [List.replicate 11 0]
        "0x000000000000000000000000000000000000000000000000000000000000000b" []
      = Except.ok true
      ∧ verify_against_txs keccakStub [List.replicate 11 0]
        "0x000000000000000000000000000000000000000000000000000000000000000B" []
      = Except.ok false
      ∧ verify_against_txs keccakStub [List.replicate 11 0]
        "000000000000000000000000000000000000000000000000000000000000000b" []
      = Except.ok false :=
  ⟨rfl, rfl, rfl⟩

/-- Claim C3, amended.  The matches outcome of `verify_against_txs` is the
exact string equality of the computed root with `expected_root`: it is
sensitive to hex letter case and to the presence of the `0x` marker. -/
theorem verify_exact_comparison (keccak : List Nat → List Nat)
    (laws : List (List Nat)) (expected_root : String) (tx_hashes : List String)
    (r : String)
    (h : build_merkle_root keccak (build_merkle_leaves keccak laws) = Except.ok r) :
    verify_against_txs keccak laws expected_root tx_hashes
      = Except.ok (r == expected_root) := by
  unfold verify_against_txs
  rw [h]
  by_cases hre : (r == expected_root) = true
  · simp [bne, hre, lattice_attest]
  · simp only [Bool.not_eq_true] at hre
    simp [bne, hre, lattice_attest]

/-- Witness for the amended claim C3 at a concrete document set and a
case-varied expected root. -/
theorem verify_exact_comparison_witness :
    build_merkle_root keccakStub (build_merkle_leaves keccakStub [List.replicate 11 0])
      = Except.ok "0x000000000000000000000000000000000000000000000000000000000000000b"
      ∧ verify_against_txs keccakStub [List.replicate 11 0]
        "0x000000000000000000000000000000000000000000000000000000000000000B" []
      = Except.ok
        ("0x000000000000000000000000000000000000000000000000000000000000000b" ==
          "0x000000000000000000000000000000000000000000000000000000000000000B") :=
  ⟨rfl,
    verify_exact_comparison keccakStub [List.replicate 11 0]
      "0x000000000000000000000000000000000000000000000000000000000000000B" []
      "0x000000000000000000000000000000000000000000000000000000000000000b" rfl⟩

/-- Claim C4.  The Lattice-rule attestation flag is true exactly when the
computed root equals the expected one; the epoch is carried through unchanged
and has no influence on the flag. -/
theorem lattice_attest_iff (computed_root expected_root ep ep' : String) :
    ((lattice_attest computed_root expected_root ep).1 = true
      ↔ (computed_root == expected_root) = true)
      ∧ (lattice_attest computed_root expected_root ep).2 = ep
      ∧ (lattice_attest computed_root expected_root ep').1
        = (lattice_attest computed_root expected_root ep).1 := by
  unfold lattice_attest
  by_cases h : (computed_root == expected_root) = true
  · simp [h]
  · simp only [Bool.not_eq_true] at h
    simp [h]

/-- Claim C5.  `build_merkle_leaves` is permutation-invariant: any two
document sequences that are permutations of each other yield identical leaf
sequences (documents are sorted before hashing), hence identical roots. -/
theorem build_merkle_leaves_perm_invariant (keccak : List Nat → List Nat)
    (docs₁ docs₂ : List (List Nat)) (h : docs₁.Perm docs₂) :
    build_merkle_leaves keccak docs₁ = build_merkle_leaves keccak docs₂
      ∧ build_merkle_root keccak (build_merkle_leaves keccak docs₁)
        = build_merkle_root keccak (build_merkle_leaves keccak docs₂) := by
  have hsort : List.insertionSort ByteLe docs₁ = List.insertionSort ByteLe docs₂ :=
    List.eq_of_perm_of_sorted
      (((List.perm_insertionSort ByteLe docs₁).trans h).trans
        (List.perm_insertionSort ByteLe docs₂).symm)
      (List.sorted_insertionSort ByteLe docs₁)
      (List.sorted_insertionSort ByteLe docs₂)
  have hleaves : build_merkle_leaves keccak docs₁ = build_merkle_leaves keccak docs₂ := by
    unfold build_merkle_leaves
    rw [hsort]
  exact ⟨hleaves, by rw [hleaves]⟩

/-- Witness for claim C5 at the two-document set of the design's sort
invariance example (documents as byte sequences, in the two orders). -/
theorem build_merkle_leaves_perm_invariant_witness :
    ([[66], [65]] : List (List Nat)).Perm [[65], [66]]
      ∧ build_merkle_leaves keccakId [[66], [65]]
        = build_merkle_leaves keccakId [[65], [66]] :=
  ⟨List.Perm.swap [65] [66] [],
    (build_merkle_leaves_perm_invariant keccakId [[66], [65]] [[65], [66]]
      (List.Perm.swap [65] [66] [])).1⟩

/-- Claim C6.  Each consecutive pair `(left, right)` of a level produces the
next-level element `keccak256(raw_bytes(left) ++ raw_bytes(right))` — the
concatenation of the two digests' hex-decoded binary values — and for exactly
two leaves the root is `keccak256(raw(L1) ++ raw(L2))`. -/
theorem merkle_pair_rule (keccak : List Nat → List Nat) (x y l₁ l₂ : String)
    (rest : List String) :
    build_merkle_level keccak (x :: y :: rest)
        = keccak256 keccak (raw_bytes x ++ raw_bytes y) :: build_merkle_level keccak rest
      ∧ build_merkle_root keccak [l₁, l₂]
        = Except.ok (keccak256 keccak (raw_bytes l₁ ++ raw_bytes l₂)) :=
  ⟨rfl, rfl⟩

/-- Claim C7.  The outcome of `verify_against_txs` does not depend on the
ledger transaction list: any two `tx_hashes` values give the same result (the
loop over the transactions only prints). -/
theorem verify_ignores_txs (keccak : List Nat → List Nat)
    (laws : List (List Nat)) (expected_root : String) (txs₁ txs₂ : List String) :
    verify_against_txs keccak laws expected_root txs₁
      = verify_against_txs keccak laws expected_root txs₂ := rfl

/-- Claim C8.  A single-leaf input returns that leaf itself as the root, with
zero reduction rounds performed. -/
theorem single_leaf_identity (keccak : List Nat → List Nat) (x : String) :
    build_merkle_root keccak [x] = Except.ok x ∧ merkle_rounds keccak [x] = 0 :=
  ⟨rfl, rfl⟩

/-- Claim C9.  On every non-empty leaf sequence `build_merkle_root` returns a
root (it is total and the reduction loop exits by reaching a single element),
the loop body runs exactly `⌈log₂ n⌉` times for `n` leaves, and each round
replaces a level of length `m` by one of length `⌈m / 2⌉ = (m + 1) / 2`. -/
theorem build_merkle_root_total_rounds (keccak : List Nat → List Nat)
    (leaves : List String) (h : leaves ≠ []) :
    (∃ root, build_merkle_root keccak leaves = Except.ok root)
      ∧ (merkle_iter keccak leaves.length leaves).length = 1
      ∧ merkle_rounds keccak leaves = Nat.clog 2 leaves.length
      ∧ ∀ lvl : List String,
          (build_merkle_level keccak lvl).length = (lvl.length + 1) / 2 := by
  obtain ⟨h1, h2⟩ :=
    merkle_iter_spec keccak leaves.length leaves h (clog_two_le_self leaves.length)
  refine ⟨⟨(merkle_iter keccak leaves.length leaves).headD "", ?_⟩, h1, h2,
    fun lvl => build_merkle_level_length keccak lvl⟩
  unfold build_merkle_root
  rw [if_neg (by simp [h])]

/-- Witness for claim C9 at a concrete three-leaf input. -/
theorem build_merkle_root_total_rounds_witness :
    (["0x01", "0x02", "0x03"] : List String) ≠ []
      ∧ ((∃ root, build_merkle_root keccakId ["0x01", "0x02", "0x03"] = Except.ok root)
        ∧ (merkle_iter keccakId (["0x01", "0x02", "0x03"] : List String).length
            ["0x01", "0x02", "0x03"]).length = 1
        ∧ merkle_rounds keccakId ["0x01", "0x02", "0x03"]
          = Nat.clog 2 (["0x01", "0x02", "0x03"] : List String).length
        ∧ ∀ lvl : List String,
            (build_merkle_level keccakId lvl).length = (lvl.length + 1) / 2) :=
  ⟨by decide,
    build_merkle_root_total_rounds keccakId ["0x01", "0x02", "0x03"] (by decide)⟩

/-- Claim C10.  `build_merkle_leaves` produces exactly one leaf per input
document: the leaf sequence has the input's length, duplicate documents keep
their multiplicity rather than being deduplicated, and (with the identity
digest stand-in) duplicating a document changes the resulting root. -/
theorem leaves_one_per_document (keccak : List Nat → List Nat)
    (docs : List (List Nat)) (d : List Nat) :
    (build_merkle_leaves keccak docs).length = docs.length
      ∧ docs.count d ≤ (build_merkle_leaves keccak docs).count (keccak256 keccak d)
      ∧ build_merkle_root keccakId (build_merkle_leaves keccakId [[0], [0]])
        ≠ build_merkle_root keccakId (build_merkle_leaves keccakId [[0]]) := by
  refine ⟨?_, ?_, fun hcontra => absurd (Except.ok.inj hcontra) (by decide)⟩
  · unfold build_merkle_leaves
    rw [List.length_map, List.length_insertionSort]
  · unfold build_merkle_leaves
    have hperm : docs.count d = (List.insertionSort ByteLe docs).count d := by
      rw [List.count_eq_countP, List.count_eq_countP]
      exact ((List.perm_insertionSort ByteLe docs).countP_eq _).symm
    rw [hperm]
    exact count_le_count_map _ d _
